import Mathlib

/-!
Verification development for the advanced data-to-video converter
(`src/advanced_data_to_video.py`, class `AdvancedDataToVideoConverter`).

The converter's core codec is embedded shallowly: byte strings are `List Nat`
(values kept in `0..255` by construction), the 16-bit audio stream is modelled
at byte level (sample `s` occupies bytes `2*s` and `2*s+1`, little-endian, and
all slicing in the source happens on whole samples), and fallible I/O around
the codec is out of scope.  The codec's two internal numpy error paths are
modelled with `Option`: the encode pass raises at `np.concatenate` of an
empty per-frame audio list (zero frames), and the decode loop raises at
`audio_to_matrix`'s reshape when fewer than `matrixSize^2` samples remain at
the audio cursor (`fileToFramesWithAudioChecked`, `decodeFrameStepChecked`,
`framesWithAudioToFileChecked`).  The floating-point DCT matrix built by
`create_compression_matrix` is data independent and its serialized form is a
fixed block of `2 * matrixSize^2` bytes; since no code path uses its numeric
content to invert compression, the encoder is parametrized by that serialized
block (`mb`) instead of re-deriving cosine values, and layout theorems
quantify over it or instantiate it with a concrete 512-byte block.
-/

set_option maxRecDepth 100000
set_option maxHeartbeats 4000000

/-- Frame geometry of a converter session: constructor arguments of
`AdvancedDataToVideoConverter.__init__` (width, height, sample_rate,
audio_channels). -/
structure Geometry where
  width : Nat
  height : Nat
  sampleRate : Nat
  channels : Nat
deriving DecidableEq

/-- Positive geometry, the validity condition the spec places on sessions. -/
def Geometry.valid (g : Geometry) : Prop :=
  0 < g.width ∧ 0 < g.height ∧ 0 < g.sampleRate ∧ 0 < g.channels

instance (g : Geometry) : Decidable (Geometry.valid g) := by
  unfold Geometry.valid
  infer_instance

/-- Embeds `self.pixels_per_frame = width * height`. -/
def pixelsPerFrame (g : Geometry) : Nat := g.width * g.height

/-- Embeds `self.bytes_per_frame_video = pixels_per_frame * 3`. -/
def bytesPerFrameVideo (g : Geometry) : Nat := pixelsPerFrame g * 3

/-- Embeds `self.samples_per_frame = sample_rate // 30`; the source hardcodes
30 here (comment in the source: 30fps assumed) and never consults the fps
argument of `file_to_frames_with_audio` for capacities. -/
def samplesPerFrame (g : Geometry) : Nat := g.sampleRate / 30

/-- Embeds `self.bytes_per_frame_audio = samples_per_frame * audio_channels * 2`. -/
def bytesPerFrameAudio (g : Geometry) : Nat := samplesPerFrame g * g.channels * 2

/-- Embeds `self.bytes_per_frame_total = bytes_per_frame_video + bytes_per_frame_audio`. -/
def bytesPerFrameTotal (g : Geometry) : Nat := bytesPerFrameVideo g + bytesPerFrameAudio g

/-- Embeds `math.ceil(file_size / bytes_per_frame_total)` over naturals. -/
def numFramesFor (size total : Nat) : Nat := (size + total - 1) / total

/-- Number of leading elements of the list equal to `v`, capped at `cap`.
Mirrors the inner `while` of `_apply_rle`, which extends a run while
`data[i] == data[i + count]` and `count < 255` (so at most 254 extensions). -/
def countRun (v : Nat) : Nat → List Nat → Nat
  | _, [] => 0
  | 0, _ :: _ => 0
  | cap + 1, x :: xs => if x = v then countRun v cap xs + 1 else 0

/-- Fuel-indexed body of `_apply_rle`: take the capped leading run of the head
value; emit the escape triple `[255, value, count]` when `count > 3`, else
`count` literal copies; continue after the run.  `fuel` bounds the number of
runs; `applyRle` supplies `l.length`, which always suffices. -/
def rleGo : Nat → List Nat → List Nat
  | 0, _ => []
  | _ + 1, [] => []
  | fuel + 1, v :: rest =>
    (if 3 < countRun v 254 rest + 1 then [255, v, countRun v 254 rest + 1]
     else List.replicate (countRun v 254 rest + 1) v) ++
      rleGo fuel (rest.drop (countRun v 254 rest))

/-- Embeds `_apply_rle` (run-length encoding of the differential sequence). -/
def applyRle (l : List Nat) : List Nat := rleGo l.length l

/-- Embeds `_decode_rle`: a byte equal to 255 with at least two following
bytes (`i + 2 < len(data)`) is an escape `[255, value, count]` expanding to
`count` copies of `value`; any other byte is copied literally. -/
def decodeRle : List Nat → List Nat
  | a :: b :: c :: rest =>
    if a = 255 then List.replicate c b ++ decodeRle rest
    else a :: decodeRle (b :: c :: rest)
  | l => l

/-- Boolean guard mirroring the recursion of `rleGo`: every run chunk whose
value is the escape byte 255 is long enough (`count > 3`) to be emitted as an
escape triple.  This is the formal reading of the spec's side condition that
the value 255 never appears outside an intended run: a 255 outside an intended
run is exactly a 255-chunk that `_apply_rle` would emit as bare literals. -/
def goodRleGo : Nat → List Nat → Bool
  | 0, _ => true
  | _ + 1, [] => true
  | fuel + 1, v :: rest =>
    (if v = 255 then decide (3 < countRun v 254 rest + 1) else true) &&
      goodRleGo fuel (rest.drop (countRun v 254 rest))

/-- Escape-safety of a byte sequence for `_apply_rle` / `_decode_rle`. -/
def goodRle (l : List Nat) : Bool := goodRleGo l.length l

/-- Pairwise byte differences in uint8 arithmetic: one step of
`np.diff(data_array)` with the previous byte carried along.  Inputs below 256
make `(x + 256 - prev) % 256` the wraparound difference. -/
def diffPairs (prev : Nat) : List Nat → List Nat
  | [] => []
  | x :: xs => (x + 256 - prev) % 256 :: diffPairs x xs

/-- Embeds the differential step of `create_compression_matrix`:
`np.diff(data_array, prepend=data_array[0])` when the array has more than one
element (first difference is 0), and the array itself otherwise. -/
def differentialEncode : List Nat → List Nat
  | [] => []
  | [v] => [v]
  | v :: rest => 0 :: diffPairs v rest

/-- Signed 32-bit wraparound, the dtype of `np.cumsum(..., dtype=np.int32)`. -/
def toInt32 (n : Int) : Int := (n + 2 ^ 31) % 2 ^ 32 - 2 ^ 31

/-- Running int32 partial sums of a byte list: `np.cumsum(d, dtype=np.int32)`. -/
def cumsumInt32 (acc : Int) : List Nat → List Int
  | [] => []
  | x :: xs => toInt32 (acc + x) :: cumsumInt32 (toInt32 (acc + x)) xs

/-- Embeds `np.clip(x, 0, 255)` followed by the exact `astype(np.uint8)`. -/
def clip255 (x : Int) : Nat := if x < 0 then 0 else if 255 < x then 255 else x.toNat

/-- Embeds the differential-reversal step of `frames_with_audio_to_file`
(source lines 377-384): `cumsum` the decoded bytes into int32, overwrite
element 0 with `differential_base`, clip everything to `[0, 255]`.  Note the
source neither adds the base to later elements nor wraps modulo 256. -/
def reverseDifferential (decompressed : List Nat) (base : Nat) : List Nat :=
  match cumsumInt32 0 decompressed with
  | [] => []
  | _ :: rest => clip255 base :: rest.map clip255

/-- Modelled from the spec (section 4.2 differential decode), for comparison
with `reverseDifferential`: `original[0] = differentialBase`,
`original[i] = (original[i-1] + diff[i]) mod 256`. -/
def diffDecodeSpecGo (prev : Nat) : List Nat → List Nat
  | [] => []
  | d :: ds => (prev + d) % 256 :: diffDecodeSpecGo ((prev + d) % 256) ds

/-- Modelled from the spec (section 4.2 differential decode): the first
output byte is the recorded base, later bytes accumulate differences with
wraparound modulo 256. -/
def differentialDecodeSpec : List Nat → Nat → List Nat
  | [], _ => []
  | _ :: ds, base => base % 256 :: diffDecodeSpecGo (base % 256) ds

/-- Per-frame metadata recorded by the encoder: the `frame_meta` dictionary of
`file_to_frames_with_audio` with its nested `compression` dictionary from
`create_compression_matrix` flattened.  `compressionRatio` is modelled in `ℚ`
(the float quotient `compressed_length / original_length` is exact for the
comparisons against 1 used here). -/
structure FrameMeta where
  videoBytes : Nat
  audioBytes : Nat
  originalLength : Nat
  compressedLength : Nat
  compressionRatio : Rat
  matrixSize : Nat
  differentialBase : Nat
deriving DecidableEq

/-- Embeds one iteration of the encode loop of `file_to_frames_with_audio`
(source lines 241-290) on the frame's slice of the file: split into video
part and audio overflow, compress the video part (differential then RLE),
pad or truncate to the video capacity, and pack the audio chunk as serialized
matrix `mb` followed by the overflow, zero padded and truncated to the audio
capacity.  Returns (pixel frame bytes, audio chunk bytes, frame metadata). -/
def encodeFrame (g : Geometry) (mb : List Nat) (slice : List Nat) :
    List Nat × List Nat × FrameMeta :=
  let videoDataSize := min slice.length (bytesPerFrameVideo g)
  let videoData := slice.take videoDataSize
  let audioData := slice.drop videoDataSize
  let compressed := applyRle (differentialEncode videoData)
  let meta : FrameMeta :=
    { videoBytes := videoDataSize
      audioBytes := audioData.length
      originalLength := videoData.length
      compressedLength := compressed.length
      compressionRatio :=
        if 0 < videoData.length then (compressed.length : Rat) / (videoData.length : Rat) else 1
      matrixSize := 16
      differentialBase := videoData.headD 0 }
  let pixelFrame :=
    if compressed.length < bytesPerFrameVideo g then
      compressed ++ List.replicate (bytesPerFrameVideo g - compressed.length) 0
    else compressed.take (bytesPerFrameVideo g)
  let audioChunk :=
    (mb ++ audioData ++
        List.replicate (bytesPerFrameAudio g - mb.length - audioData.length) 0).take
      (bytesPerFrameAudio g)
  (pixelFrame, audioChunk, meta)

/-- Per-frame slices of the input file taken by the encode loop:
`data[i*total : min((i+1)*total, size)]` for each frame index. -/
def encodeSlices (g : Geometry) (data : List Nat) : List (List Nat) :=
  (List.range (numFramesFor data.length (bytesPerFrameTotal g))).map
    fun i => (data.drop (i * bytesPerFrameTotal g)).take (bytesPerFrameTotal g)

/-- Artifacts and metadata produced by one encode pass: the pixel frames, the
per-frame audio chunks (whose concatenation is the `audio.raw` stream), the
frame metadata list, and the session metadata fields the decoder reads. -/
structure EncodeResult where
  frames : List (List Nat)
  audioChunks : List (List Nat)
  metas : List FrameMeta
  numFrames : Nat
  originalSize : Nat
deriving DecidableEq

/-- Embeds the frame loop of `file_to_frames_with_audio` on in-memory data:
slice the file, encode every slice with `encodeFrame`, and record the session
metadata (`original_size`, `num_frames`, per-frame records).  This is the
loop's result only; the audio persistence step after the loop
(`np.concatenate(all_audio_data)`, source line 296) raises ValueError when no
frame was produced — that error path is modelled by
`fileToFramesWithAudioChecked` below. -/
def fileToFramesWithAudio (g : Geometry) (mb : List Nat) (data : List Nat) : EncodeResult :=
  let slices := encodeSlices g data
  let results := slices.map (encodeFrame g mb)
  { frames := results.map fun r => r.1
    audioChunks := results.map fun r => r.2.1
    metas := results.map fun r => r.2.2
    numFrames := numFramesFor data.length (bytesPerFrameTotal g)
    originalSize := data.length }

/-- Decoder state across frames: the reconstructed byte accumulator and the
audio read cursor in 16-bit samples (`audio_offset` in the source). -/
structure DecodeState where
  acc : List Nat
  audioOffset : Nat

/-- Embeds `frame_array.tobytes()[:frame_meta[video_bytes]]` — the byte
string handed to `_decode_rle` during decode. -/
def decodeRleInput (frame : List Nat) (meta : FrameMeta) : List Nat :=
  frame.take meta.videoBytes

/-- Embeds one iteration of the decode loop of `frames_with_audio_to_file`
(source lines 354-401): RLE-decode the leading `video_bytes` of the pixel
frame, reverse the differential step, keep `original_length` bytes, then read
the frame's literal audio overflow from the raw stream after skipping
`matrix_size^2` samples, and advance the cursor by `samples_per_frame`.  The
audio stream is byte-addressed, so sample index `s` starts at byte `2*s` and
the slice of `audio_bytes // 2` samples is `2 * (audio_bytes / 2)` bytes.
This is the step's effect when the matrix extraction succeeds; the loop also
calls `audio_to_matrix` (source lines 366-371), whose `reshape` raises
ValueError when fewer than `matrix_size^2` samples remain at the cursor —
that error path is modelled by `decodeFrameStepChecked` below (the matrix's
numeric values are never used afterwards). -/
def decodeFrameStep (g : Geometry) (audio : List Nat) (st : DecodeState)
    (fm : List Nat × FrameMeta) : DecodeState :=
  let meta := fm.2
  let decompressed := decodeRle (decodeRleInput fm.1 meta)
  let originalData := reverseDifferential decompressed meta.differentialBase
  let videoOut := originalData.take meta.originalLength
  let audioStart := st.audioOffset + meta.matrixSize * meta.matrixSize
  let frameAudio :=
    ((audio.drop (2 * audioStart)).take (2 * (meta.audioBytes / 2))).take meta.audioBytes
  { acc := st.acc ++ videoOut ++ frameAudio
    audioOffset := st.audioOffset + samplesPerFrame g }

/-- Embeds the decode pass `frames_with_audio_to_file` along the path where
every frame's matrix extraction succeeds: fold the per-frame decode step over
the frame records in order, then truncate the reconstruction to the recorded
original size.  The matrix-extraction error path is modelled by
`framesWithAudioToFileChecked` below. -/
def framesWithAudioToFile (g : Geometry) (e : EncodeResult) : List Nat :=
  ((e.frames.zip e.metas).foldl (decodeFrameStep g e.audioChunks.flatten) ⟨[], 0⟩).acc.take
    e.originalSize

/-- Embeds the full encode entry point including the audio persistence step:
after the frame loop, `np.concatenate(all_audio_data)` (source line 296)
raises ValueError when the per-frame sample list is empty, i.e. exactly when
`num_frames = 0`, before `audio.raw` or `metadata.json` are written.  `none`
models that error; otherwise the pass returns the loop's result. -/
def fileToFramesWithAudioChecked (g : Geometry) (mb : List Nat) (data : List Nat) :
    Option EncodeResult :=
  if numFramesFor data.length (bytesPerFrameTotal g) = 0 then none
  else some (fileToFramesWithAudio g mb data)

/-- Embeds one iteration of the decode loop including the matrix side-channel
extraction (source lines 366-371): `audio_to_matrix` reshapes the sample
slice `audio_data[audio_offset : audio_offset + matrix_size^2]` into a
`matrix_size × matrix_size` matrix, and numpy's clamping slice yields fewer
than `matrix_size^2` samples — so `reshape` raises ValueError — exactly when
the stream holds fewer than `audio_offset + matrix_size^2` samples.  `none`
models that error; otherwise the step is `decodeFrameStep` (the matrix's
numeric content is never used to invert compression). -/
def decodeFrameStepChecked (g : Geometry) (audio : List Nat) (st : DecodeState)
    (fm : List Nat × FrameMeta) : Option DecodeState :=
  if audio.length / 2 < st.audioOffset + fm.2.matrixSize * fm.2.matrixSize then none
  else some (decodeFrameStep g audio st fm)

/-- Embeds the decode pass `frames_with_audio_to_file` with the
matrix-extraction error path: the per-frame steps run in order and the first
ValueError aborts the whole pass before any output is written. -/
def framesWithAudioToFileChecked (g : Geometry) (e : EncodeResult) : Option (List Nat) :=
  ((e.frames.zip e.metas).foldl
      (fun ost fm => ost.bind fun st =>
        decodeFrameStepChecked g e.audioChunks.flatten st fm)
      (some ⟨[], 0⟩)).map
    fun st => st.acc.take e.originalSize

/-- Serialized-matrix stand-in used by concrete evaluations: a block with the
byte footprint of the 16×16 matrix (256 int16 samples, 512 bytes). -/
def mb0 : List Nat := List.replicate 512 0

/-- Default session geometry of the source (1920×1080, 48 kHz, stereo). -/
def defaultGeometry : Geometry := ⟨1920, 1080, 48000, 2⟩

/-- Small valid geometry used by concrete evaluations: 2×1 pixels, 60 Hz,
mono, giving 6 video bytes, 2 samples and 4 audio bytes per frame. -/
def gSmall : Geometry := ⟨2, 1, 60, 1⟩

/-- Valid geometry with a large audio channel (1×1 pixels, 15.6 kHz mono:
3 video bytes, 520 samples and 1040 audio bytes per frame), used to exhibit
audio-overflow truncation. -/
def gAudio : Geometry := ⟨1, 1, 15600, 1⟩

/-- Valid stereo geometry (1×1 pixels, 2580 Hz, 2 channels: 3 video bytes,
`samplesPerFrame = 86` but 344 audio bytes = 172 samples written per frame),
used to exhibit the audio cursor misalignment.  The stream is long enough
(344 samples over two frames) for every matrix extraction to succeed, so the
decode pass runs to completion. -/
def gStereo : Geometry := ⟨1, 1, 2580, 2⟩

/-- Valid mono geometry (2×1 pixels, 7680 Hz: 6 video bytes and 512 audio
bytes = 256 samples per frame), whose one-frame audio stream holds exactly
the `16^2 = 256` samples the decode matrix extraction needs, so the decode
pass runs to completion. -/
def gMono : Geometry := ⟨2, 1, 7680, 1⟩

/-- Input exhibiting audio-overflow truncation: 3 video bytes then 1040
overflow bytes, exactly one full frame at `gAudio`. -/
def overflowFile : List Nat := List.replicate 3 0 ++ List.replicate 1040 1

/-- Input spanning two frames at `gStereo` (347 bytes per frame). -/
def stereoFile : List Nat := List.replicate 350 9

/-- The concrete scenario input of the spec: 10,000 repeated byte 65. -/
def fileA : List Nat := List.replicate 10000 65

lemma countRun_le_length (v : Nat) : ∀ (cap : Nat) (l : List Nat), countRun v cap l ≤ l.length := by
  intro cap l
  induction l generalizing cap with
  | nil => simp [countRun]
  | cons x xs ih =>
    cases cap with
    | zero => simp [countRun]
    | succ c =>
      simp only [countRun, List.length_cons]
      split
      · have := ih c
        omega
      · omega

lemma take_countRun (v : Nat) : ∀ (cap : Nat) (l : List Nat),
    l.take (countRun v cap l) = List.replicate (countRun v cap l) v := by
  intro cap l
  induction l generalizing cap with
  | nil => simp [countRun]
  | cons x xs ih =>
    cases cap with
    | zero => simp [countRun]
    | succ c =>
      by_cases hx : x = v
      · subst hx
        simp [countRun, List.replicate_succ, ih c]
      · simp [countRun, hx]

lemma decodeRle_cons_ne (v : Nat) (t : List Nat) (hv : v ≠ 255) :
    decodeRle (v :: t) = v :: decodeRle t := by
  match t with
  | [] => rfl
  | [b] => rfl
  | b :: c :: r => simp [decodeRle, hv]

lemma decodeRle_replicate_append (v : Nat) (hv : v ≠ 255) :
    ∀ (n : Nat) (t : List Nat),
      decodeRle (List.replicate n v ++ t) = List.replicate n v ++ decodeRle t := by
  intro n
  induction n with
  | zero => simp
  | succ m ih =>
    intro t
    simp only [List.replicate_succ, List.cons_append]
    rw [decodeRle_cons_ne v _ hv, ih]

lemma decodeRle_escape (v c : Nat) (t : List Nat) :
    decodeRle (255 :: v :: c :: t) = List.replicate c v ++ decodeRle t := by
  simp [decodeRle]

lemma decodeRle_rleGo : ∀ (fuel : Nat) (l : List Nat), l.length ≤ fuel →
    goodRleGo fuel l = true → decodeRle (rleGo fuel l) = l := by
  intro fuel
  induction fuel with
  | zero =>
    intro l hl _
    have hnil : l = [] := List.length_eq_zero.mp (Nat.le_zero.mp hl)
    subst hnil
    rfl
  | succ f ih =>
    intro l hl hg
    cases l with
    | nil => rfl
    | cons v rest =>
      have hk : countRun v 254 rest ≤ rest.length := countRun_le_length v 254 rest
      have htd : rest.take (countRun v 254 rest) ++ rest.drop (countRun v 254 rest) = rest :=
        List.take_append_drop _ rest
      have hrep : rest.take (countRun v 254 rest) = List.replicate (countRun v 254 rest) v :=
        take_countRun v 254 rest
      have hlen : (rest.drop (countRun v 254 rest)).length ≤ f := by
        simp only [List.length_drop]
        simp only [List.length_cons] at hl
        omega
      simp only [goodRleGo, Bool.and_eq_true] at hg
      have ih2 := ih _ hlen hg.2
      by_cases h3 : 3 < countRun v 254 rest + 1
      · simp only [rleGo, if_pos h3, List.cons_append, List.nil_append]
        rw [decodeRle_escape, ih2, List.replicate_succ, List.cons_append, ← hrep, htd]
      · have hv : v ≠ 255 := by
          intro hveq
          rw [if_pos hveq, decide_eq_true_eq] at hg
          exact h3 hg.1
        simp only [rleGo, if_neg h3]
        rw [decodeRle_replicate_append v hv, ih2, List.replicate_succ, List.cons_append,
          ← hrep, htd]

lemma diffPairs_length (l : List Nat) : ∀ prev, (diffPairs prev l).length = l.length := by
  induction l with
  | nil => intro prev; rfl
  | cons x xs ih => intro prev; simp [diffPairs, ih]

lemma differentialEncode_length (l : List Nat) : (differentialEncode l).length = l.length := by
  match l with
  | [] => rfl
  | [v] => rfl
  | v :: x :: xs => simp [differentialEncode, diffPairs_length]

lemma rleGo_length_le : ∀ (fuel : Nat) (l : List Nat), (rleGo fuel l).length ≤ l.length := by
  intro fuel
  induction fuel with
  | zero => intro l; simp [rleGo]
  | succ f ih =>
    intro l
    cases l with
    | nil => simp [rleGo]
    | cons v rest =>
      have hk : countRun v 254 rest ≤ rest.length := countRun_le_length v 254 rest
      have ih2 := ih (rest.drop (countRun v 254 rest))
      simp only [List.length_drop] at ih2
      by_cases h3 : 3 < countRun v 254 rest + 1
      · simp only [rleGo, if_pos h3, List.length_append, List.length_cons, List.length_nil,
          List.length_drop]
        omega
      · simp only [rleGo, if_neg h3, List.length_append, List.length_replicate,
          List.length_drop, List.length_cons]
        omega

lemma applyRle_length_le (l : List Nat) : (applyRle l).length ≤ l.length :=
  rleGo_length_le l.length l

lemma take_min_self (slice : List Nat) (v : Nat) :
    slice.take (min slice.length v) = slice.take v := by
  rcases Nat.le_total slice.length v with h | h
  · rw [Nat.min_eq_left h, List.take_length, List.take_of_length_le h]
  · rw [Nat.min_eq_right h]

lemma encodeFrame_videoBytes (g : Geometry) (mb slice : List Nat) :
    ((encodeFrame g mb slice).2.2).videoBytes = min slice.length (bytesPerFrameVideo g) := by
  simp [encodeFrame]

lemma encodeFrame_originalLength (g : Geometry) (mb slice : List Nat) :
    ((encodeFrame g mb slice).2.2).originalLength = min slice.length (bytesPerFrameVideo g) := by
  simp only [encodeFrame, List.length_take]
  omega

lemma encodeFrame_compressedLength (g : Geometry) (mb slice : List Nat) :
    ((encodeFrame g mb slice).2.2).compressedLength =
      (applyRle (differentialEncode (slice.take (bytesPerFrameVideo g)))).length := by
  simp only [encodeFrame]
  rw [take_min_self]

lemma encodeFrame_pixel (g : Geometry) (mb slice : List Nat) :
    (encodeFrame g mb slice).1 =
      (if (applyRle (differentialEncode (slice.take (bytesPerFrameVideo g)))).length <
          bytesPerFrameVideo g then
        applyRle (differentialEncode (slice.take (bytesPerFrameVideo g))) ++
          List.replicate (bytesPerFrameVideo g -
            (applyRle (differentialEncode (slice.take (bytesPerFrameVideo g)))).length) 0
      else
        (applyRle (differentialEncode (slice.take (bytesPerFrameVideo g)))).take
          (bytesPerFrameVideo g)) := by
  simp only [encodeFrame]
  rw [take_min_self]

lemma encodeFrame_compressedLength_le (g : Geometry) (mb slice : List Nat) :
    ((encodeFrame g mb slice).2.2).compressedLength ≤
      ((encodeFrame g mb slice).2.2).originalLength := by
  rw [encodeFrame_compressedLength, encodeFrame_originalLength]
  calc (applyRle (differentialEncode (slice.take (bytesPerFrameVideo g)))).length
      ≤ (differentialEncode (slice.take (bytesPerFrameVideo g))).length :=
        applyRle_length_le _
    _ = (slice.take (bytesPerFrameVideo g)).length := differentialEncode_length _
    _ = min (bytesPerFrameVideo g) slice.length := List.length_take _ _
    _ = min slice.length (bytesPerFrameVideo g) := Nat.min_comm _ _

lemma encodeFrame_ratio_le_one (g : Geometry) (mb slice : List Nat) :
    ((encodeFrame g mb slice).2.2).compressionRatio ≤ 1 := by
  have hle := encodeFrame_compressedLength_le g mb slice
  rw [encodeFrame_compressedLength, encodeFrame_originalLength] at hle
  simp only [encodeFrame]
  split
  · rename_i hpos
    rw [div_le_one (by exact_mod_cast hpos)]
    have hlen : (slice.take (min slice.length (bytesPerFrameVideo g))).length =
        min slice.length (bytesPerFrameVideo g) := by
      simp only [List.length_take]
      omega
    rw [take_min_self] at hlen ⊢
    rw [hlen]
    exact_mod_cast hle
  · exact le_refl 1

lemma mem_metas_exists (g : Geometry) (mb data : List Nat) (m : FrameMeta)
    (hm : m ∈ (fileToFramesWithAudio g mb data).metas) :
    ∃ slice, slice ∈ encodeSlices g data ∧ m = (encodeFrame g mb slice).2.2 := by
  simp only [fileToFramesWithAudio, List.map_map] at hm
  obtain ⟨s, hs, hsm⟩ := List.mem_map.mp hm
  refine ⟨s, hs, ?_⟩
  simpa [Function.comp] using hsm.symm

lemma numFramesFor_zero (t : Nat) : numFramesFor 0 t = 0 := by
  unfold numFramesFor
  cases t with
  | zero => rfl
  | succ n =>
    have h : 0 + (n + 1) - 1 = n := by omega
    rw [h]
    exact Nat.div_eq_of_lt (Nat.lt_succ_self n)

/-- C3: for every byte sequence in which the value 255 does not appear outside
an intended run (`goodRle`: every maximal-run chunk of value 255 taken by
`_apply_rle` is long enough, count > 3, to be emitted as an escape triple),
RLE decode inverts RLE encode: `_decode_rle(_apply_rle(D)) = D`. -/
theorem c3_rle_inverse (l : List Nat) (hl : goodRle l = true) :
    decodeRle (applyRle l) = l :=
  decodeRle_rleGo l.length l (Nat.le_refl _) hl

/-- Witness for C3 at the concrete byte sequence [9, 9, 9, 9, 9, 1, 2]. -/
theorem c3_rle_inverse_witness :
    goodRle [9, 9, 9, 9, 9, 1, 2] = true ∧
      decodeRle (applyRle [9, 9, 9, 9, 9, 1, 2]) = [9, 9, 9, 9, 9, 1, 2] :=
  ⟨by decide, c3_rle_inverse _ (by decide)⟩

/-- C6 counterexample: the claimed CapacityExhausted situation cannot occur at
all — there is no input byte sequence, valid geometry and frame whose
RLE-compressed video payload exceeds `videoBytesPerFrame`, because `_apply_rle`
never expands its input. -/
theorem c6_counterexample :
    ¬ ∃ (g : Geometry) (mb data : List Nat) (m : FrameMeta),
        Geometry.valid g ∧ (∀ b ∈ data, b < 256) ∧
          m ∈ (fileToFramesWithAudio g mb data).metas ∧
          bytesPerFrameVideo g < m.compressedLength := by
  rintro ⟨g, mb, data, m, _, _, hm, hlt⟩
  obtain ⟨s, _, rfl⟩ := mem_metas_exists g mb data m hm
  have h1 := encodeFrame_compressedLength_le g mb s
  have h2 := encodeFrame_originalLength g mb s
  have h3 : min s.length (bytesPerFrameVideo g) ≤ bytesPerFrameVideo g :=
    Nat.min_le_right _ _
  omega

/-- C6 amended: for every frame record of every encode, the RLE-compressed
payload never exceeds the pre-compression slice, hence never exceeds
`videoBytesPerFrame`, and the recorded compressionRatio is at most 1; the
CapacityExhausted condition is impossible (so it is vacuously surfaced). -/
theorem c6_no_capacity_exhaustion (g : Geometry) (mb data : List Nat) (m : FrameMeta)
    (hm : m ∈ (fileToFramesWithAudio g mb data).metas) :
    m.compressedLength ≤ m.originalLength ∧
      m.originalLength ≤ bytesPerFrameVideo g ∧
      m.compressedLength ≤ bytesPerFrameVideo g ∧
      m.compressionRatio ≤ 1 := by
  obtain ⟨s, _, rfl⟩ := mem_metas_exists g mb data m hm
  have h1 := encodeFrame_compressedLength_le g mb s
  have h2 := encodeFrame_originalLength g mb s
  have h3 : min s.length (bytesPerFrameVideo g) ≤ bytesPerFrameVideo g :=
    Nat.min_le_right _ _
  have h4 := encodeFrame_ratio_le_one g mb s
  exact ⟨h1, by omega, by omega, h4⟩

/-- Witness for C6 amended at the one-frame encode of [65, 65] at `gSmall`. -/
theorem c6_no_capacity_exhaustion_witness :
    (encodeFrame gSmall mb0 [65, 65]).2.2 ∈
        (fileToFramesWithAudio gSmall mb0 [65, 65]).metas ∧
      (((encodeFrame gSmall mb0 [65, 65]).2.2).compressedLength ≤
          ((encodeFrame gSmall mb0 [65, 65]).2.2).originalLength ∧
        ((encodeFrame gSmall mb0 [65, 65]).2.2).originalLength ≤ bytesPerFrameVideo gSmall ∧
        ((encodeFrame gSmall mb0 [65, 65]).2.2).compressedLength ≤ bytesPerFrameVideo gSmall ∧
        ((encodeFrame gSmall mb0 [65, 65]).2.2).compressionRatio ≤ 1) := by
  have hmem : (encodeFrame gSmall mb0 [65, 65]).2.2 ∈
      (fileToFramesWithAudio gSmall mb0 [65, 65]).metas := by
    have h : ([65, 65] : List Nat) ∈ encodeSlices gSmall [65, 65] := by decide
    simp only [fileToFramesWithAudio, List.map_map]
    exact List.mem_map.mpr ⟨[65, 65], h, rfl⟩
  exact ⟨hmem, c6_no_capacity_exhaustion gSmall mb0 [65, 65] _ hmem⟩

/-- C7: for an empty input file numFrames is 0 and the frame loop emits no
frames, but the encode pass does not complete normally: with zero frames the
audio persistence step raises ValueError (`np.concatenate` of an empty list,
source line 296) before audio or metadata are written, so there is no session
for the decode pass to reconstruct the empty sequence from. -/
theorem c7_empty_file_encode_crashes (g : Geometry) (mb : List Nat) :
    (fileToFramesWithAudio g mb []).numFrames = 0 ∧
      (fileToFramesWithAudio g mb []).frames = [] ∧
      fileToFramesWithAudioChecked g mb [] = none := by
  refine ⟨?_, ?_, ?_⟩
  · simp [fileToFramesWithAudio, numFramesFor_zero]
  · simp [fileToFramesWithAudio, encodeSlices, numFramesFor_zero]
  · unfold fileToFramesWithAudioChecked
    rw [if_pos (by simp [numFramesFor_zero])]

/-- Witness for C7 at the small concrete geometry. -/
theorem c7_empty_file_encode_crashes_witness :
    (fileToFramesWithAudio gSmall mb0 []).numFrames = 0 ∧
      (fileToFramesWithAudio gSmall mb0 []).frames = [] ∧
      fileToFramesWithAudioChecked gSmall mb0 [] = none :=
  c7_empty_file_encode_crashes gSmall mb0

/-- C10: for every frame of every encode, the byte string handed to RLE decode
is the first `videoBytes` bytes of the pixel frame, where `videoBytes` is the
pre-compression video-slice length `min(sliceLength, videoBytesPerFrame)`
(equal to `originalLength`, not `compressedLength`); consequently, whenever
`compressedLength < originalLength`, that input is the compressed stream
followed by `originalLength - compressedLength` trailing zero-padding bytes
that were never part of the compressed stream. -/
theorem c10_decode_rle_input_padding (g : Geometry) (mb data slice : List Nat)
    (_hs : slice ∈ encodeSlices g data) :
    ((encodeFrame g mb slice).2.2).videoBytes = min slice.length (bytesPerFrameVideo g) ∧
      ((encodeFrame g mb slice).2.2).videoBytes =
        ((encodeFrame g mb slice).2.2).originalLength ∧
      (((encodeFrame g mb slice).2.2).compressedLength <
          ((encodeFrame g mb slice).2.2).originalLength →
        decodeRleInput (encodeFrame g mb slice).1 (encodeFrame g mb slice).2.2 =
          applyRle (differentialEncode (slice.take (bytesPerFrameVideo g))) ++
            List.replicate
              (((encodeFrame g mb slice).2.2).originalLength -
                ((encodeFrame g mb slice).2.2).compressedLength) 0) := by
  refine ⟨encodeFrame_videoBytes g mb slice, ?_, ?_⟩
  · rw [encodeFrame_videoBytes, encodeFrame_originalLength]
  · intro hlt
    rw [encodeFrame_compressedLength, encodeFrame_originalLength] at hlt
    unfold decodeRleInput
    rw [encodeFrame_videoBytes, encodeFrame_pixel, encodeFrame_originalLength,
      encodeFrame_compressedLength]
    have hminle : min slice.length (bytesPerFrameVideo g) ≤ bytesPerFrameVideo g :=
      Nat.min_le_right _ _
    rw [if_pos (lt_of_lt_of_le hlt hminle)]
    rw [List.take_append_eq_append_take]
    rw [List.take_of_length_le (le_of_lt hlt)]
    rw [List.take_replicate]
    rw [Nat.min_eq_left (Nat.sub_le_sub_right hminle _)]

/-- Witness for C10 at a one-frame encode of ten bytes 5 at `gSmall`, where
the compressed length 3 is below the original length 6. -/
theorem c10_decode_rle_input_padding_witness :
    List.replicate 10 5 ∈ encodeSlices gSmall (List.replicate 10 5) ∧
      ((encodeFrame gSmall mb0 (List.replicate 10 5)).2.2).compressedLength <
        ((encodeFrame gSmall mb0 (List.replicate 10 5)).2.2).originalLength ∧
      decodeRleInput (encodeFrame gSmall mb0 (List.replicate 10 5)).1
          (encodeFrame gSmall mb0 (List.replicate 10 5)).2.2 =
        applyRle (differentialEncode ((List.replicate 10 5).take
            (bytesPerFrameVideo gSmall))) ++
          List.replicate
            (((encodeFrame gSmall mb0 (List.replicate 10 5)).2.2).originalLength -
              ((encodeFrame gSmall mb0 (List.replicate 10 5)).2.2).compressedLength) 0 :=
  ⟨by decide, by decide,
    (c10_decode_rle_input_padding gSmall mb0 (List.replicate 10 5) (List.replicate 10 5)
      (by decide)).2.2 (by decide)⟩

lemma encodeFrame_meta_eq (g : Geometry) (mb slice : List Nat) :
    (encodeFrame g mb slice).2.2 =
      { videoBytes := min slice.length (bytesPerFrameVideo g)
        audioBytes := slice.length - min slice.length (bytesPerFrameVideo g)
        originalLength := (slice.take (bytesPerFrameVideo g)).length
        compressedLength :=
          (applyRle (differentialEncode (slice.take (bytesPerFrameVideo g)))).length
        compressionRatio :=
          if 0 < (slice.take (bytesPerFrameVideo g)).length then
            ((applyRle (differentialEncode (slice.take (bytesPerFrameVideo g)))).length : Rat) /
              ((slice.take (bytesPerFrameVideo g)).length : Rat)
          else 1
        matrixSize := 16
        differentialBase := (slice.take (bytesPerFrameVideo g)).headD 0 } := by
  simp only [encodeFrame]
  rw [take_min_self]
  simp [List.length_drop]

/-- C8 counterexample: at the default geometry in a session configured with
fps = 60, the code's audio capacity is 6400 bytes, not the claimed
`(sampleRate / fps) * channels * 2 = 3200`, because `samples_per_frame`
hardcodes the divisor 30. -/
theorem c8_counterexample :
    bytesPerFrameAudio defaultGeometry = 6400 ∧
      defaultGeometry.sampleRate / 60 * defaultGeometry.channels * 2 = 3200 ∧
      bytesPerFrameAudio defaultGeometry ≠
        defaultGeometry.sampleRate / 60 * defaultGeometry.channels * 2 := by
  decide

/-- C8 amended: `videoBytesPerFrame = width * height * 3` and
`audioBytesPerFrame = (sampleRate / 30) * channels * 2` with truncating
division, where 30 is a hardcoded constant independent of the session's
configured fps (the claimed formula holds only when fps = 30). -/
theorem c8_capacities (g : Geometry) :
    bytesPerFrameVideo g = g.width * g.height * 3 ∧
      bytesPerFrameAudio g = g.sampleRate / 30 * g.channels * 2 :=
  ⟨rfl, rfl⟩

/-- Witness for C8 amended at the default geometry. -/
theorem c8_capacities_witness :
    bytesPerFrameVideo defaultGeometry =
        defaultGeometry.width * defaultGeometry.height * 3 ∧
      bytesPerFrameAudio defaultGeometry =
        defaultGeometry.sampleRate / 30 * defaultGeometry.channels * 2 :=
  c8_capacities defaultGeometry

/-- C2: differential decode does not invert differential encode.  At
D = [65, 65] the encoder yields diff = [0, 0] with base 65 (and the
spec-modelled modular decode correctly recovers [65, 65]), but the code's
reversal `reverseDifferential` — cumulative int32 sums, overwrite element 0
with the base, clip to [0, 255] — returns [65, 0], since it never adds the
base to later elements and clamps instead of wrapping. -/
theorem c2_differential_decode_not_inverse :
    differentialEncode [65, 65] = [0, 0] ∧
      differentialDecodeSpec (differentialEncode [65, 65]) 65 = [65, 65] ∧
      reverseDifferential (differentialEncode [65, 65]) 65 = [65, 0] ∧
      reverseDifferential (differentialEncode [65, 65]) 65 ≠ [65, 65] := by
  decide

/-- C1: the decode-of-encode round trip fails even when every frame's
recorded compressionRatio is at most 1 (here exactly 1).  At the valid
geometry `gMono` the encode pass of [65, 65] completes (one frame), the
decode pass survives the matrix extraction (exactly 256 samples are
available) and returns [65, 0] instead of [65, 65]. -/
theorem c1_roundtrip_fails :
    Geometry.valid gMono ∧
      fileToFramesWithAudioChecked gMono mb0 [65, 65] =
        some (fileToFramesWithAudio gMono mb0 [65, 65]) ∧
      (fileToFramesWithAudio gMono mb0 [65, 65]).metas.map
          (fun m => m.compressionRatio) = [1] ∧
      ((1 : Rat) ≤ 1) ∧
      framesWithAudioToFileChecked gMono (fileToFramesWithAudio gMono mb0 [65, 65]) =
        some [65, 0] ∧
      some ([65, 0] : List Nat) ≠ some ([65, 65] : List Nat) := by
  refine ⟨by decide, ?_, ?_, by norm_num, by decide, by decide⟩
  · unfold fileToFramesWithAudioChecked
    rw [if_neg (by decide)]
  · have hsl : encodeSlices gMono [65, 65] = [[65, 65]] := by decide
    have h1 : (applyRle (differentialEncode
        (([65, 65] : List Nat).take (bytesPerFrameVideo gMono)))).length = 2 := by decide
    have h2 : ((([65, 65] : List Nat)).take (bytesPerFrameVideo gMono)).length = 2 := by
      decide
    simp only [fileToFramesWithAudio, hsl, List.map_map, List.map_cons, List.map_nil,
      Function.comp_apply, encodeFrame_meta_eq, h1, h2]
    norm_num

/-- C4: audio overflow is not capped at `audioBytesPerFrame` minus the
matrix footprint, and overflow bytes are discarded.  At the valid geometry
`gAudio` (1040 audio bytes per frame, 512-byte matrix footprint) a full frame
records 1040 overflow bytes, exceeding the claimed cap 1040 - 512 = 528, and
the emitted audio chunk keeps only the first 528 of them: the 1040 overflow
bytes of value 1 appear only 528 times in the chunk. -/
theorem c4_overflow_truncated :
    Geometry.valid gAudio ∧
      (fileToFramesWithAudio gAudio mb0 overflowFile).numFrames = 1 ∧
      (fileToFramesWithAudio gAudio mb0 overflowFile).metas.map (fun m => m.audioBytes) =
        [1040] ∧
      ¬ (1040 ≤ bytesPerFrameAudio gAudio - 2 * 16 * 16) ∧
      (fileToFramesWithAudio gAudio mb0 overflowFile).audioChunks =
        [List.replicate 512 0 ++ List.replicate 528 1] ∧
      (List.replicate 512 0 ++ List.replicate 528 1).count 1 = 528 ∧ (528 : Nat) ≠ 1040 := by
  decide

/-- C5: the decode audio cursor misaligns with the encoder's per-frame audio
layout for stereo sessions.  At the valid stereo geometry `gStereo` the
encoder emits 344 audio bytes (172 samples) per frame, so frame 1's first
audio sample sits at sample offset 172, while the decode cursor after one
frame is `samplesPerFrame = 86`.  Both frames' matrix extractions succeed
(344 samples in the stream, cursor at 0 then 86), so the decode pass runs to
completion along this misaligned layout. -/
theorem c5_audio_cursor_misaligned :
    Geometry.valid gStereo ∧
      fileToFramesWithAudioChecked gStereo mb0 stereoFile =
        some (fileToFramesWithAudio gStereo mb0 stereoFile) ∧
      (fileToFramesWithAudio gStereo mb0 stereoFile).numFrames = 2 ∧
      (fileToFramesWithAudio gStereo mb0 stereoFile).audioChunks.map List.length =
        [344, 344] ∧
      ((fileToFramesWithAudio gStereo mb0 stereoFile).audioChunks.take 1).flatten.length / 2
        = 172 ∧
      ((((fileToFramesWithAudio gStereo mb0 stereoFile).frames.zip
              (fileToFramesWithAudio gStereo mb0 stereoFile).metas).take 1).foldl
          (fun ost fm => ost.bind fun st =>
            decodeFrameStepChecked gStereo
              (fileToFramesWithAudio gStereo mb0 stereoFile).audioChunks.flatten st fm)
          (some ⟨[], 0⟩)).map (fun st => st.audioOffset) = some 86 ∧
      (86 : Nat) ≠ 172 ∧
      (framesWithAudioToFileChecked gStereo
          (fileToFramesWithAudio gStereo mb0 stereoFile)).isSome = true := by
  refine ⟨by decide, ?_, by decide, by decide, by decide, by decide, by decide, by decide⟩
  unfold fileToFramesWithAudioChecked
  rw [if_neg (by decide)]

lemma rleGo_nil (fuel : Nat) : rleGo fuel [] = [] := by
  cases fuel <;> rfl

lemma diffPairs_replicate (v : Nat) : ∀ k, diffPairs v (List.replicate k v) = List.replicate k 0 := by
  intro k
  induction k with
  | zero => rfl
  | succ m ih =>
    simp only [List.replicate_succ, diffPairs, ih]
    rw [Nat.add_sub_cancel_left, Nat.mod_self]

lemma differentialEncode_replicate (v k : Nat) :
    differentialEncode (List.replicate (k + 2) v) = List.replicate (k + 2) 0 := by
  show differentialEncode (v :: v :: List.replicate k v) = _
  simp only [differentialEncode]
  rw [show diffPairs v (v :: List.replicate k v) = diffPairs v (List.replicate (k+1) v) from rfl]
  rw [diffPairs_replicate]
  rfl

lemma countRun_replicate (v : Nat) : ∀ (m cap : Nat),
    countRun v cap (List.replicate m v) = min m cap := by
  intro m
  induction m with
  | zero => intro cap; simp [countRun]
  | succ k ih =>
    intro cap
    cases cap with
    | zero => simp [List.replicate_succ, countRun]
    | succ c => simp [List.replicate_succ, countRun, ih c, Nat.succ_min_succ]

lemma rleGo_replicate_zero : ∀ (j r fuel : Nat), 4 ≤ r → r ≤ 255 → 255 * j + r ≤ fuel →
    rleGo fuel (List.replicate (255 * j + r) 0) =
      (List.replicate j ([255, 0, 255] : List Nat)).flatten ++ [255, 0, r] := by
  intro j
  induction j with
  | zero =>
    intro r fuel h4 h255 hfuel
    obtain ⟨f, rfl⟩ : ∃ f, fuel = f + 1 := ⟨fuel - 1, by omega⟩
    obtain ⟨r1, rfl⟩ : ∃ r1, r = r1 + 1 := ⟨r - 1, by omega⟩
    have hn : 255 * 0 + (r1 + 1) = r1 + 1 := by omega
    rw [hn, List.replicate_succ]
    simp only [rleGo, countRun_replicate]
    rw [Nat.min_eq_left (by omega)]
    rw [if_pos (by omega)]
    rw [List.drop_replicate, Nat.sub_self]
    simp [rleGo_nil]
  | succ jj ih =>
    intro r fuel h4 h255 hfuel
    obtain ⟨f, rfl⟩ : ∃ f, fuel = f + 1 := ⟨fuel - 1, by omega⟩
    have hn : 255 * (jj + 1) + r = (255 * jj + r + 254) + 1 := by omega
    rw [hn, List.replicate_succ]
    simp only [rleGo, countRun_replicate]
    rw [Nat.min_eq_right (by omega)]
    rw [if_pos (by omega)]
    rw [List.drop_replicate]
    have hd : 255 * jj + r + 254 - 254 = 255 * jj + r := by omega
    rw [hd, ih r f h4 h255 (by omega)]
    simp [List.replicate_succ, List.append_assoc]

lemma applyRle_replicate_zero :
    applyRle (List.replicate 10000 0) =
      (List.replicate 39 ([255, 0, 255] : List Nat)).flatten ++ [255, 0, 55] := by
  unfold applyRle
  rw [List.length_replicate]
  rw [show (10000 : Nat) = 255 * 39 + 55 by norm_num]
  exact rleGo_replicate_zero 39 55 (255 * 39 + 55) (by norm_num) (by norm_num) (le_refl _)

lemma decodeRle_replicate (v n : Nat) (hv : v ≠ 255) :
    decodeRle (List.replicate n v) = List.replicate n v := by
  have h := decodeRle_replicate_append v hv n []
  rw [show decodeRle ([] : List Nat) = [] from rfl, List.append_nil] at h
  exact h

lemma decodeRle_flatten_escape : ∀ (j : Nat) (t : List Nat),
    decodeRle ((List.replicate j ([255, 0, 255] : List Nat)).flatten ++ t) =
      (List.replicate j (List.replicate 255 (0 : Nat))).flatten ++ decodeRle t := by
  intro j
  induction j with
  | zero => intro t; simp
  | succ k ih =>
    intro t
    rw [List.replicate_succ ([255, 0, 255] : List Nat) k, List.flatten_cons,
      List.append_assoc]
    rw [show ([255, 0, 255] : List Nat) ++
          ((List.replicate k ([255, 0, 255] : List Nat)).flatten ++ t) =
        255 :: 0 :: 255 :: ((List.replicate k ([255, 0, 255] : List Nat)).flatten ++ t)
      from rfl]
    rw [decodeRle_escape, ih]
    rw [List.replicate_succ (List.replicate 255 (0 : Nat)) k, List.flatten_cons,
      List.append_assoc]

lemma flatten_replicate_replicate (j m v : Nat) :
    (List.replicate j (List.replicate m v)).flatten = List.replicate (j * m) v := by
  induction j with
  | zero => simp
  | succ k ih =>
    simp only [List.replicate_succ, List.flatten_cons, ih]
    rw [← List.replicate_add]
    congr 1
    ring

lemma cumsumInt32_zero_replicate : ∀ n, cumsumInt32 0 (List.replicate n 0) =
    List.replicate n (0 : Int) := by
  intro n
  induction n with
  | zero => rfl
  | succ k ih =>
    simp only [List.replicate_succ, cumsumInt32]
    have h0 : toInt32 (0 + ((0 : Nat) : Int)) = 0 := by decide
    rw [h0, ih]

lemma clip255_cast (b : Nat) (hb : b ≤ 255) : clip255 (b : Int) = b := by
  unfold clip255
  rw [if_neg (by omega), if_neg (by omega)]
  simp

lemma reverseDifferential_cons (d : Nat) (ds : List Nat) (base : Nat) :
    reverseDifferential (d :: ds) base =
      clip255 base :: (cumsumInt32 (toInt32 (0 + (d : Int))) ds).map clip255 := rfl

lemma reverseDifferential_replicate_zero (n base : Nat) (hb : base ≤ 255) :
    reverseDifferential (List.replicate (n + 1) 0) base = base :: List.replicate n 0 := by
  rw [List.replicate_succ, reverseDifferential_cons]
  have h0 : toInt32 (0 + ((0 : Nat) : Int)) = 0 := by decide
  rw [h0, cumsumInt32_zero_replicate, List.map_replicate]
  rw [clip255_cast base hb]
  have hz : clip255 (0 : Int) = 0 := by decide
  rw [hz]

theorem c9_repeated_bytes_scenario :
    (fileToFramesWithAudio defaultGeometry mb0 fileA).numFrames = 1 ∧
      applyRle (differentialEncode (fileA.take (bytesPerFrameVideo defaultGeometry))) =
        (List.replicate 39 ([255, 0, 255] : List Nat)).flatten ++ [255, 0, 55] ∧
      (fileToFramesWithAudio defaultGeometry mb0 fileA).metas.map
          (fun m => m.compressedLength) = [120] ∧
      (fileToFramesWithAudio defaultGeometry mb0 fileA).metas.map
          (fun m => m.compressionRatio) = [(3 : Rat) / 250] ∧
      ¬ ((3 : Rat) / 250 < 1 / 100) ∧
      framesWithAudioToFile defaultGeometry
          (fileToFramesWithAudio defaultGeometry mb0 fileA) ≠ fileA := by
  have hlenA : fileA.length = 10000 := by
    unfold fileA
    exact List.length_replicate _ _
  have htakeA : fileA.take (bytesPerFrameVideo defaultGeometry) = fileA :=
    List.take_of_length_le (by rw [hlenA]; decide)
  have hdiff : differentialEncode fileA = List.replicate 10000 0 := by
    have h : fileA = List.replicate (9998 + 2) 65 := by
      unfold fileA
      congr 1
    rw [h, differentialEncode_replicate]
  have hcomp : applyRle (differentialEncode (fileA.take (bytesPerFrameVideo defaultGeometry)))
      = (List.replicate 39 ([255, 0, 255] : List Nat)).flatten ++ [255, 0, 55] := by
    rw [htakeA, hdiff, applyRle_replicate_zero]
  have hclen : ((List.replicate 39 ([255, 0, 255] : List Nat)).flatten ++ [255, 0, 55]).length
      = 120 := by decide
  have hnum : numFramesFor 10000 (bytesPerFrameTotal defaultGeometry) = 1 := by decide
  have hsl : encodeSlices defaultGeometry fileA = [fileA] := by
    unfold encodeSlices
    rw [hlenA, hnum]
    rw [show List.range 1 = [0] from rfl]
    simp only [List.map_cons, List.map_nil, Nat.zero_mul, List.drop_zero]
    rw [List.take_of_length_le (by rw [hlenA]; decide)]
  have hE : fileToFramesWithAudio defaultGeometry mb0 fileA =
      { frames := [(encodeFrame defaultGeometry mb0 fileA).1]
        audioChunks := [(encodeFrame defaultGeometry mb0 fileA).2.1]
        metas := [(encodeFrame defaultGeometry mb0 fileA).2.2]
        numFrames := 1
        originalSize := 10000 } := by
    unfold fileToFramesWithAudio
    rw [hsl, hlenA, hnum]
    rfl
  have hmeta : (encodeFrame defaultGeometry mb0 fileA).2.2 =
      { videoBytes := 10000, audioBytes := 0, originalLength := 10000,
        compressedLength := 120, compressionRatio := (3 : Rat) / 250, matrixSize := 16,
        differentialBase := 65 } := by
    rw [encodeFrame_meta_eq]
    simp only [FrameMeta.mk.injEq]
    refine ⟨?_, ?_, ?_, ?_, ?_, trivial, ?_⟩
    · rw [hlenA]; decide
    · rw [hlenA]; decide
    · rw [htakeA, hlenA]
    · rw [hcomp]; exact hclen
    · rw [hcomp, hclen, htakeA, hlenA, if_pos (by norm_num)]
      norm_num
    · rw [htakeA]; decide
  have hpix : (encodeFrame defaultGeometry mb0 fileA).1 =
      ((List.replicate 39 ([255, 0, 255] : List Nat)).flatten ++ [255, 0, 55]) ++
        List.replicate (bytesPerFrameVideo defaultGeometry - 120) 0 := by
    rw [encodeFrame_pixel, hcomp, hclen, if_pos (by decide)]
  have hinput : (((List.replicate 39 ([255, 0, 255] : List Nat)).flatten ++ [255, 0, 55]) ++
        List.replicate (bytesPerFrameVideo defaultGeometry - 120) 0).take 10000 =
      (List.replicate 39 ([255, 0, 255] : List Nat)).flatten ++
        ([255, 0, 55] ++ List.replicate 9880 0) := by
    rw [List.take_append_eq_append_take]
    rw [List.take_of_length_le (le_of_eq_of_le hclen (by norm_num))]
    rw [hclen, List.take_replicate]
    rw [show (10000 : Nat) - 120 = 9880 by norm_num]
    rw [Nat.min_eq_left (by decide)]
    rw [List.append_assoc]
  have hdec : decodeRle ((List.replicate 39 ([255, 0, 255] : List Nat)).flatten ++
        ([255, 0, 55] ++ List.replicate 9880 0)) = List.replicate 19880 0 := by
    rw [decodeRle_flatten_escape]
    rw [show ([255, 0, 55] ++ List.replicate 9880 0 : List Nat) =
        255 :: 0 :: 55 :: List.replicate 9880 0 from rfl]
    rw [decodeRle_escape]
    rw [decodeRle_replicate 0 9880 (by decide)]
    rw [flatten_replicate_replicate]
    rw [← List.replicate_add, ← List.replicate_add]
  have hrev : reverseDifferential (List.replicate 19880 0) 65 =
      65 :: List.replicate 19879 0 := by
    rw [show (19880 : Nat) = 19879 + 1 from by norm_num]
    exact reverseDifferential_replicate_zero 19879 65 (by norm_num)
  have hdecode : framesWithAudioToFile defaultGeometry
      (fileToFramesWithAudio defaultGeometry mb0 fileA) = 65 :: List.replicate 9999 0 := by
    rw [hE]
    unfold framesWithAudioToFile
    simp only [List.zip_cons_cons, List.zip_nil_right, List.foldl_cons, List.foldl_nil]
    unfold decodeFrameStep
    unfold decodeRleInput
    rw [hmeta, hpix]
    simp only []
    rw [hinput, hdec, hrev]
    simp only [List.take_succ_cons, List.take_replicate]
    rw [Nat.min_eq_left (by norm_num)]
    simp only [List.nil_append, List.take_zero, List.append_nil]
    rw [List.take_of_length_le
      (by rw [List.length_cons, List.length_replicate])]
  refine ⟨?_, hcomp, ?_, ?_, by norm_num, ?_⟩
  · rw [hE]
  · rw [hE]
    simp only [List.map_cons, List.map_nil, hmeta]
  · rw [hE]
    simp only [List.map_cons, List.map_nil, hmeta]
  · rw [hdecode]
    intro h
    have h1 : (65 :: List.replicate 9999 0 : List Nat).getD 1 0 = fileA.getD 1 0 := by
      rw [h]
    have h2 : (65 :: List.replicate 9999 0 : List Nat).getD 1 0 = 0 := by decide
    have h3 : fileA.getD 1 0 = 65 := by decide
    omega
